import Mathlib

/-!
Verification of the HC908JB8 USB ICP flashing tool (`src/tools/manage.c`)
against its design specification.

The development shallowly embeds the core of `manage.c`:

* the S19 record parser `HRM_ICP_ReadS19` (line handling, field extraction with
  `strtoul(·, NULL, 16)` semantics, the address-window guard, the payload copy
  loop and the ICP-flag/checksum computation);
* the per-block erase and program operations `HRM_ICP_EraseFlashBlock` /
  `HRM_ICP_ProgramFlash` with the device's responses abstracted as data;
* the phase drivers `HRM_ICP_EraseFlash` / `HRM_ICP_ProgramFlash` and the
  relevant control flow of `main` (error codes, `HRM_CheckError` exits, the
  final `HRM_ICP_CloseUSB`).

Machine-integer conventions used throughout (the C code computes in
`unsigned char` / `int` / `unsigned int`):

* storing an `int` into an `unsigned char` is truncation modulo 256;
* `x & 0xff` is `x % 256`, `x >> 8` is `x / 256`, `x << 8` is `x * 256`;
* the `unsigned int` checksum accumulator cannot overflow 2^32 for byte-valued
  memory (at most 510 · 255), and `0xffff & x` masks to `x % 0x10000` even if
  it did, since 0x10000 divides 2^32.

The memory image `mem[MEM_SIZE]` is modelled as a total function `Nat → Nat`;
writes performed by the parser are recorded at their C index `address -
MEM_OFFSET + i` even when that index is out of bounds, which is exactly what
lets us state (and refute) the in-bounds claims about the parser.
-/

/-! ## Constants from manage.c -/

def MEM_SIZE : Nat := 0x1C00
def MEM_OFFSET : Nat := 0xDC00
def MEM_BLOCK_SIZE : Nat := 0x200
def MEM_PROG_BLOCK_SIZE : Nat := 0x40

def ICP_CHECKSUM_START : Nat := 0xF600
def ICP_CHECKSUM_STOP : Nat := 0xF7FD
def ICP_FLAG_ADDRESS : Nat := 0xF7FE

def HRM_NO_ERRORS : Nat := 0
def HRM_USB_OPEN_ERROR : Nat := 1
def HRM_USB_CONFIG_ERROR : Nat := 2
def HRM_FILE_OPEN_ERROR : Nat := 3
def HRM_FLASH_ERASE_ERROR : Nat := 4
def HRM_FLASH_PROGRAM_ERROR : Nat := 5

/-! ## S19 record parser (HRM_ICP_ReadS19) -/

/-- The NUL character: what reading a C string past its end yields. -/
def nulChar : Char := Char.ofNat 0

/-- `line[p]` for a parsed line: positions past the end read as NUL
(`fgets` terminates the buffer, `strncpy` stops at the terminator). -/
def lineGet (l : List Char) (p : Nat) : Char := l.getD p nulChar

/-- Value of one hex digit, `none` for a non-digit. -/
def hexDigitVal (c : Char) : Option Nat :=
  if '0' ≤ c ∧ c ≤ '9' then some (c.toNat - '0'.toNat)
  else if 'a' ≤ c ∧ c ≤ 'f' then some (c.toNat - 'a'.toNat + 10)
  else if 'A' ≤ c ∧ c ≤ 'F' then some (c.toNat - 'A'.toNat + 10)
  else none

/-- Accumulating loop of `strtoul(s, NULL, 16)`: consume hex digits,
stop at the first non-digit. -/
def parseHexAux (acc : Nat) : List Char → Nat
  | [] => acc
  | c :: cs =>
    match hexDigitVal c with
    | some v => parseHexAux (16 * acc + v) cs
    | none => acc

/-- `strtoul(s, NULL, 16)` on a short field cut out of a record line: the value
of the longest hex-digit prefix, `0` when there is none.  (The whitespace /
sign / `0x`-prefix cases of `strtoul` are not modelled: on fields whose first
character is a hex digit or a terminator — the only fields the theorems below
quantify over — `strtoul` behaves exactly like this prefix parse.) -/
def parseHex (s : List Char) : Nat := parseHexAux 0 s

/-- A two-character field at position `p`, as copied by
`strncpy(dst, line+p, 2)` and parsed by `strtoul(dst, NULL, 16)`. -/
def field2 (l : List Char) (p : Nat) : Nat :=
  parseHex [lineGet l p, lineGet l (p + 1)]

/-- A four-character field at position `p` (the address field). -/
def field4 (l : List Char) (p : Nat) : Nat :=
  parseHex [lineGet l p, lineGet l (p + 1), lineGet l (p + 2), lineGet l (p + 3)]

/-- `datalen` of a record line: `strtoul` of the two characters after "S1". -/
def lineDatalen (l : List Char) : Nat := field2 l 2

/-- `address` of a record line: `strtoul` of the four characters after the
byte-count field. -/
def lineAddr (l : List Char) : Nat := field4 l 4

/-- Number of payload bytes the copy loop transfers: `datalen - 3`
(the loop `for(i=0;i<datalen-3;i++)` runs zero times when `datalen ≤ 3`,
matching truncated subtraction). -/
def payloadLen (l : List Char) : Nat := lineDatalen l - 3

/-- Payload byte `i` of a record line: `strtoul` of the two characters at
position `8 + 2*i`. -/
def payloadByte (l : List Char) (i : Nat) : Nat := field2 l (8 + 2 * i)

/-- The payload copy loop: `for(i=0;i<n;i++) mem[base+i] = <byte i>;`
performed on a memory image modelled as a total function.  Iteration `k`
is the outermost write, so later iterations overwrite earlier ones
(irrelevant here since the indices are distinct, but faithful to the loop). -/
def storeBytes (mem : Nat → Nat) (base : Nat) (l : List Char) : Nat → Nat → Nat
  | 0 => mem
  | k + 1 => fun idx =>
    if idx = base + k then payloadByte l k else storeBytes mem base l k idx

/-- Effect of the `S1` branch of `HRM_ICP_ReadS19` on the memory image:
extract `datalen` and `address`, skip the record when the address is outside
`[MEM_OFFSET, MEM_OFFSET+MEM_SIZE)`, otherwise copy the payload bytes to
`mem[address - MEM_OFFSET + i]`.  (The trailing-checksum read and `calc_crc`
computation of the C code produce values that are never used and do not touch
`mem`, so they have no effect to model.) -/
def processS1 (l : List Char) (mem : Nat → Nat) : Nat → Nat :=
  if lineAddr l < MEM_OFFSET ∨ MEM_OFFSET + MEM_SIZE ≤ lineAddr l then mem
  else storeBytes mem (lineAddr l - MEM_OFFSET) l (payloadLen l)

/-- One iteration of the read loop: dispatch on the first two characters.
Returns the new image and whether the loop `break`s (`S9` end-of-file
record); any other line is ignored. -/
def lineStep (mem : Nat → Nat) (l : List Char) : (Nat → Nat) × Bool :=
  if lineGet l 0 = 'S' ∧ lineGet l 1 = '1' then (processS1 l mem, false)
  else if lineGet l 0 = 'S' ∧ lineGet l 1 = '9' then (mem, true)
  else (mem, false)

/-- The read loop of `HRM_ICP_ReadS19` over the file's lines. -/
def runLines (mem : Nat → Nat) : List (List Char) → (Nat → Nat)
  | [] => mem
  | l :: rest =>
    let s := lineStep mem l
    if s.2 then s.1 else runLines s.1 rest

/-- The image before parsing: every byte initialised to `0xff`. -/
def initMem : Nat → Nat := fun _ => 0xFF

/-- Memory image produced by `HRM_ICP_ReadS19` from a file given as a list
of lines. -/
def readS19 (lines : List (List Char)) : Nat → Nat := runLines initMem lines

/-! ## Checksum engine (end of HRM_ICP_ReadS19, repair in main) -/

/-- The addresses the checksum loop visits:
`for(i=ICP_CHECKSUM_START; i<=ICP_CHECKSUM_STOP; i++)`. -/
def checksumAddrs : List Nat :=
  List.range' ICP_CHECKSUM_START (ICP_CHECKSUM_STOP + 1 - ICP_CHECKSUM_START)

/-- The raw accumulator `icp_flag_calculated` after the summing loop:
`icp_flag_calculated += hrm->mem[i-MEM_OFFSET]`.  (An `unsigned int`; for
byte-valued memory the sum is at most 510·255, far below 2^32.) -/
def icpWindowSum (mem : Nat → Nat) : Nat :=
  checksumAddrs.foldl (fun acc a => acc + mem (a - MEM_OFFSET)) 0

/-- `icp_flag_calculated = 0xffff - (0xffff & icp_flag_calculated) + 1`.
The mask keeps the low 16 bits; the subtraction cannot underflow and the
result is at most 0x10000. -/
def icpFlagCalculated (mem : Nat → Nat) : Nat :=
  0xFFFF - (0xFFFF &&& icpWindowSum mem) + 1

/-- `icp_flag = (mem[ICP_FLAG_ADDRESS-MEM_OFFSET] << 8) +
mem[ICP_FLAG_ADDRESS-MEM_OFFSET+1]` — `<< 8` written as `* 256`. -/
def icpFlagFromFile (mem : Nat → Nat) : Nat :=
  mem (ICP_FLAG_ADDRESS - MEM_OFFSET) * 256 + mem (ICP_FLAG_ADDRESS - MEM_OFFSET + 1)

/-- The flag repair `main` performs when the two flags differ:
`mem[ICP_FLAG_ADDRESS-MEM_OFFSET]   = icp_flag_calculated >> 8;`
`mem[ICP_FLAG_ADDRESS-MEM_OFFSET+1] = icp_flag_calculated & 0xff;`
Both stores truncate to `unsigned char` (`>> 8` is `/ 256`, the store is
`% 256`, `& 0xff` is `% 256`). -/
def repairFlag (mem : Nat → Nat) : Nat → Nat := fun idx =>
  if idx = ICP_FLAG_ADDRESS - MEM_OFFSET then icpFlagCalculated mem / 256 % 256
  else if idx = ICP_FLAG_ADDRESS - MEM_OFFSET + 1 then icpFlagCalculated mem % 256
  else mem idx

/-! ## Flash protocol engine (device responses abstracted)

A block operation issues one operation control transfer and one status-poll
control transfer and reads one status byte.  The transport is the external
collaborator, so its behaviour for one block is abstracted as a triple of
plain data; the `Sleep` calls have no observable effect in this model. -/

/-- What the transport hands back for one block operation. -/
structure DevResp where
  /-- `usb_control_msg` return of the operation (erase/program) transfer. -/
  opRet : Int
  /-- `usb_control_msg` return of the status-poll transfer. -/
  statusRet : Int
  /-- The status byte the poll stores through its buffer pointer. -/
  statusByte : Nat
  deriving DecidableEq, Repr

/-- Truncation of an `int` transfer return when stored into the
`unsigned char result` variable: value modulo 256 (e.g. `-1` becomes 255). -/
def toByte (r : Int) : Nat := (r % 256).toNat

/-- Success check of `HRM_ICP_EraseFlashBlock`.  The C code stores the erase
transfer's return into `result`, then *overwrites* `result` with the status
poll's return, and finally tests `if((status != 1) || (result != 1))` — so
only the status byte and the status poll's byte count are examined; the
erase transfer's own return is discarded. -/
def eraseFlashBlock (r : DevResp) : Bool :=
  if r.statusByte ≠ 1 ∨ toByte r.statusRet ≠ 1 then false else true

/-- Success check of one programmed block inside `HRM_ICP_ProgramFlash`:
first `if(result != MEM_PROG_BLOCK_SIZE)` on the program transfer's return,
then — after the status poll overwrites `result` — the duplicated test
`if((result != 1) || (result != 1))`, which compares the poll's byte count
with itself and never looks at `status`. -/
def programBlockCheck (r : DevResp) : Bool :=
  if toByte r.opRet ≠ MEM_PROG_BLOCK_SIZE then false
  else if toByte r.statusRet ≠ 1 ∨ toByte r.statusRet ≠ 1 then false
  else true

/-- Block-start addresses of the erase loop
`for(i=MEM_OFFSET; i<MEM_OFFSET+MEM_SIZE; i=i+MEM_BLOCK_SIZE)`:
`MEM_OFFSET + MEM_BLOCK_SIZE * t` for `t < MEM_SIZE / MEM_BLOCK_SIZE`
(the step divides the size exactly). -/
def eraseAddrs : List Nat :=
  (List.range (MEM_SIZE / MEM_BLOCK_SIZE)).map (fun t => MEM_OFFSET + MEM_BLOCK_SIZE * t)

/-- Erase loop body over a list of block addresses.  Returns whether the
phase completed and the addresses for which an erase transfer was issued
(a failing block's transfer was still issued before its check failed). -/
def eraseFlashAux (dev : Nat → DevResp) : List Nat → Bool × List Nat
  | [] => (true, [])
  | a :: rest =>
    if eraseFlashBlock (dev a) then
      let r := eraseFlashAux dev rest
      (r.1, a :: r.2)
    else (false, [a])

/-- `HRM_ICP_EraseFlash`: erase every block, aborting on the first failure. -/
def eraseFlash (dev : Nat → DevResp) : Bool × List Nat :=
  eraseFlashAux dev eraseAddrs

/-- The skip test of the program loop: `valid` is set iff some byte of the
64-byte block differs from `0xff` (the C scan breaks at the first such
byte; `List.any` is that scan). -/
def blockValid (mem : Nat → Nat) (a : Nat) : Bool :=
  (List.range MEM_PROG_BLOCK_SIZE).any (fun j => decide (mem (a - MEM_OFFSET + j) ≠ 0xFF))

/-- Block-start addresses of the program loop
`for(i=MEM_OFFSET; i<MEM_OFFSET+MEM_SIZE; i=i+MEM_PROG_BLOCK_SIZE)`. -/
def progAddrs : List Nat :=
  (List.range (MEM_SIZE / MEM_PROG_BLOCK_SIZE)).map
    (fun t => MEM_OFFSET + MEM_PROG_BLOCK_SIZE * t)

/-- Program loop body: skip all-`0xff` blocks without any transfer, issue a
program transfer for the others, abort on the first failed check.  Returns
whether the phase completed and the addresses for which a program transfer
was issued. -/
def programFlashAux (mem : Nat → Nat) (dev : Nat → DevResp) : List Nat → Bool × List Nat
  | [] => (true, [])
  | a :: rest =>
    if blockValid mem a then
      if programBlockCheck (dev a) then
        let r := programFlashAux mem dev rest
        (r.1, a :: r.2)
      else (false, [a])
    else programFlashAux mem dev rest

/-- `HRM_ICP_ProgramFlash` over the whole window. -/
def programFlash (mem : Nat → Nat) (dev : Nat → DevResp) : Bool × List Nat :=
  programFlashAux mem dev progAddrs

/-! ## main: sequencing, error exits, handle close -/

/-- Control flow of `main` from the point the device was successfully opened
by `HRM_OpenUSB`.  Result: (exit code, whether `usb_close` was called on the
handle, erase trace, program trace).

* `usb_set_configuration` failure: `HRM_ICP_InitUSB` itself closes the
  handle and `HRM_CheckError` exits with `HRM_USB_CONFIG_ERROR`;
* `HRM_ICP_ReadS19` failure: `HRM_CheckError` exits with
  `HRM_FILE_OPEN_ERROR` — no close;
* erase or program phase failure: `HRM_CheckError` exits with the
  corresponding error code — no close;
* full success: `HRM_ICP_CloseUSB` then `exit(0)`. -/
def mainAfterOpen (configOk fileOk : Bool) (mem : Nat → Nat)
    (edev pdev : Nat → DevResp) : Nat × Bool × List Nat × List Nat :=
  if configOk then
    if fileOk then
      let e := eraseFlash edev
      if e.1 then
        let p := programFlash mem pdev
        if p.1 then (HRM_NO_ERRORS, true, e.2, p.2)
        else (HRM_FLASH_PROGRAM_ERROR, false, e.2, p.2)
      else (HRM_FLASH_ERASE_ERROR, false, e.2, ([] : List Nat))
    else (HRM_FILE_OPEN_ERROR, false, [], [])
  else (HRM_USB_CONFIG_ERROR, true, [], [])

/-! ## Record validity and coverage -/

/-- `calc_crc` accumulation over the first `n` payload bytes (an
`unsigned char` in C; the final reduction modulo 256 happens in
`recordCrc`, and `(a + b) % 256 = (a % 256 + b) % 256` makes the deferred
reduction equal to the per-step one). -/
def payloadSum (l : List Char) : Nat → Nat
  | 0 => 0
  | k + 1 => payloadSum l k + payloadByte l k

/-- The record checksum the parser computes:
`calc_crc = 0xff-(calc_crc + datalen + (address>>8) + (address & 0xff))`,
truncated to `unsigned char`.  For `t` the reduced argument the `int`
result `0xff - t` is already in `[0, 255]`. -/
def recordCrc (l : List Char) : Nat :=
  0xFF - ((payloadSum l (payloadLen l) + lineDatalen l
    + lineAddr l / 256 + lineAddr l % 256) % 256)

/-- The checksum byte stored on the line: the two characters right after the
payload (position `8 + 2*i` with `i = datalen - 3` after the copy loop). -/
def lineCrcByte (l : List Char) : Nat := field2 l (8 + 2 * payloadLen l)

/-- A well-formed S1 data record line: the `S1` marker, a byte count of at
least 3, enough characters for count/address/payload/checksum, hex digits
throughout those fields, and a correct record checksum.  Characters after
the checksum (e.g. the newline `fgets` keeps) are unconstrained — the
parser never reads them. -/
def validS1 (l : List Char) : Bool :=
  decide (lineGet l 0 = 'S') && decide (lineGet l 1 = '1') &&
  decide (3 ≤ lineDatalen l) &&
  decide (10 + 2 * payloadLen l ≤ l.length) &&
  (List.range (8 + 2 * payloadLen l)).all
    (fun p => (hexDigitVal (lineGet l (2 + p))).isSome) &&
  decide (lineCrcByte l = recordCrc l)

/-- Index `idx` of the memory image is written by record line `l`
(when `l` is an accepted in-window data record). -/
def covers (l : List Char) (idx : Nat) : Prop :=
  lineAddr l - MEM_OFFSET ≤ idx ∧ idx < lineAddr l - MEM_OFFSET + payloadLen l

instance (l : List Char) (idx : Nat) : Decidable (covers l idx) :=
  inferInstanceAs (Decidable (_ ∧ _))

/-- The index ranges written by two record lines do not intersect. -/
def recDisjoint (l1 l2 : List Char) : Prop :=
  payloadLen l1 = 0 ∨ payloadLen l2 = 0 ∨
  lineAddr l1 - MEM_OFFSET + payloadLen l1 ≤ lineAddr l2 - MEM_OFFSET ∨
  lineAddr l2 - MEM_OFFSET + payloadLen l2 ≤ lineAddr l1 - MEM_OFFSET

instance (l1 l2 : List Char) : Decidable (recDisjoint l1 l2) :=
  inferInstanceAs (Decidable (_ ∨ _))

/-- Position of the record-checksum field on a line: the two characters at
`8 + 2*(datalen-3)` — exactly where the parser's final `strncpy` reads after
the payload loop. -/
def crcPos (l : List Char) : Nat := 8 + 2 * payloadLen l

/-- Two lines of the same length that agree at every position except
(possibly) the two characters of the trailing record-checksum field. -/
def sameExceptCrc (l1 l2 : List Char) : Prop :=
  l1.length = l2.length ∧
  ∀ p < l1.length, p ≠ crcPos l1 → p ≠ crcPos l1 + 1 → lineGet l1 p = lineGet l2 p

instance (l1 l2 : List Char) : Decidable (sameExceptCrc l1 l2) :=
  inferInstanceAs (Decidable (_ ∧ _))

/-- The checksum formula as §4.2 of the spec words it: the complement
(`0xFFFF - ·`) of the 16-bit sum — modulo 65536 — of every byte at addresses
`0xF600` through `0xF7FD`, plus one. -/
def specFlagCalculated (mem : Nat → Nat) : Nat :=
  0xFFFF -
    (((List.range' 0xF600 (0xF7FD + 1 - 0xF600)).map (fun a => mem (a - 0xDC00))).sum
      % 0x10000) + 1

/-! ## Parser lemmas -/

theorem storeBytes_apply (l : List Char) (base : Nat) :
    ∀ (n : Nat) (mem : Nat → Nat) (idx : Nat),
      storeBytes mem base l n idx =
        if base ≤ idx ∧ idx < base + n then payloadByte l (idx - base) else mem idx := by
  intro n
  induction n with
  | zero =>
    intro mem idx
    rw [if_neg (by omega)]
    rfl
  | succ k ih =>
    intro mem idx
    show (if idx = base + k then payloadByte l k else storeBytes mem base l k idx) = _
    by_cases h : idx = base + k
    · rw [if_pos h, if_pos (by omega)]
      congr 1
      omega
    · rw [if_neg h, ih]
      by_cases h2 : base ≤ idx ∧ idx < base + k
      · rw [if_pos h2, if_pos (by omega)]
      · rw [if_neg h2, if_neg (by omega)]

theorem processS1_apply_in (l : List Char) (mem : Nat → Nat) (idx : Nat)
    (h1 : MEM_OFFSET ≤ lineAddr l) (h2 : lineAddr l < MEM_OFFSET + MEM_SIZE) :
    processS1 l mem idx =
      if covers l idx then payloadByte l (idx - (lineAddr l - MEM_OFFSET))
      else mem idx := by
  have hguard : ¬ (lineAddr l < MEM_OFFSET ∨ MEM_OFFSET + MEM_SIZE ≤ lineAddr l) := by omega
  have hps : processS1 l mem idx =
      if lineAddr l - MEM_OFFSET ≤ idx ∧ idx < lineAddr l - MEM_OFFSET + payloadLen l
      then payloadByte l (idx - (lineAddr l - MEM_OFFSET)) else mem idx := by
    unfold processS1
    rw [if_neg hguard, storeBytes_apply]
  rw [hps]
  by_cases hc : covers l idx
  · rw [if_pos hc]
    exact if_pos hc
  · rw [if_neg hc]
    exact if_neg hc

theorem validS1_marker (l : List Char) (h : validS1 l = true) :
    lineGet l 0 = 'S' ∧ lineGet l 1 = '1' := by
  unfold validS1 at h
  simp only [Bool.and_eq_true, decide_eq_true_eq] at h
  exact ⟨h.1.1.1.1.1, h.1.1.1.1.2⟩

theorem lineStep_S1 (mem : Nat → Nat) (l : List Char) (h : validS1 l = true) :
    lineStep mem l = (processS1 l mem, false) := by
  unfold lineStep
  rw [if_pos (validS1_marker l h)]

theorem recDisjoint_not_covers (l1 l2 : List Char) (idx : Nat)
    (hd : recDisjoint l1 l2) (hc : covers l1 idx) : ¬ covers l2 idx := by
  unfold recDisjoint at hd
  unfold covers at hc ⊢
  omega

theorem runLines_frame (idx : Nat) :
    ∀ (lines : List (List Char)) (mem : Nat → Nat),
      (∀ l ∈ lines, validS1 l = true ∧ MEM_OFFSET ≤ lineAddr l ∧
        lineAddr l < MEM_OFFSET + MEM_SIZE ∧ ¬ covers l idx) →
      runLines mem lines idx = mem idx := by
  intro lines
  induction lines with
  | nil => intro mem _; rfl
  | cons x rest ih =>
    intro mem hv
    have hx := hv x (List.mem_cons_self x rest)
    show (let s := lineStep mem x; if s.2 then s.1 else runLines s.1 rest) idx = mem idx
    rw [lineStep_S1 mem x hx.1]
    show runLines (processS1 x mem) rest idx = mem idx
    rw [ih (processS1 x mem) (fun l hl => hv l (List.mem_cons_of_mem x hl)),
      processS1_apply_in x mem idx hx.2.1 hx.2.2.1, if_neg hx.2.2.2]

theorem runLines_record_value :
    ∀ (lines : List (List Char)) (mem : Nat → Nat),
      (∀ l ∈ lines, validS1 l = true ∧ MEM_OFFSET ≤ lineAddr l ∧
        lineAddr l < MEM_OFFSET + MEM_SIZE) →
      lines.Pairwise recDisjoint →
      ∀ l ∈ lines, ∀ i < payloadLen l,
        runLines mem lines (lineAddr l - MEM_OFFSET + i) = payloadByte l i := by
  intro lines
  induction lines with
  | nil => intro mem _ _ l hl; cases hl
  | cons x rest ih =>
    intro mem hv hd l hl i hi
    have hx := hv x (List.mem_cons_self x rest)
    show (let s := lineStep mem x; if s.2 then s.1 else runLines s.1 rest) _ = _
    rw [lineStep_S1 mem x hx.1]
    show runLines (processS1 x mem) rest _ = _
    rcases List.mem_cons.mp hl with rfl | hl'
    · -- the record is the head line: its bytes are written now and no later
      -- line covers them
      have hcov : covers l (lineAddr l - MEM_OFFSET + i) := ⟨Nat.le_add_right _ _, by omega⟩
      rw [runLines_frame _ rest (processS1 l mem) ?_]
      · rw [processS1_apply_in l mem _ hx.2.1 hx.2.2, if_pos hcov]
        have hidx : lineAddr l - MEM_OFFSET + i - (lineAddr l - MEM_OFFSET) = i := by omega
        rw [hidx]
      · intro l' hl'
        have hv' := hv l' (List.mem_cons_of_mem l hl')
        have hdis := (List.pairwise_cons.mp hd).1 l' hl'
        exact ⟨hv'.1, hv'.2.1, hv'.2.2, recDisjoint_not_covers l l' _ hdis hcov⟩
    · exact ih (processS1 x mem) (fun l'' h => hv l'' (List.mem_cons_of_mem x h))
        (List.pairwise_cons.mp hd).2 l hl' i hi

/-! ## Claim C2: payload placement and 0xFF fill -/

/-- C2 (amended): for an input file of valid data records with addresses in
the window `[0xDC00, 0xDC00+0x1C00)` and pairwise non-overlapping payload
ranges, parsing stores each record's payload byte `i` at index
`address - 0xDC00 + i`, and every image index not covered by any record's
payload holds `0xFF`.  (The non-overlap proviso is forced by the
counterexample `readS19_overlap_loses_byte`: on overlap the later record
overwrites the earlier one's bytes.) -/
theorem readS19_places_payload_and_fills_rest (lines : List (List Char))
    (hv : ∀ l ∈ lines, validS1 l = true ∧ MEM_OFFSET ≤ lineAddr l ∧
      lineAddr l < MEM_OFFSET + MEM_SIZE)
    (hd : lines.Pairwise recDisjoint) :
    (∀ l ∈ lines, ∀ i < payloadLen l,
      readS19 lines (lineAddr l - MEM_OFFSET + i) = payloadByte l i) ∧
    (∀ idx < MEM_SIZE, (∀ l ∈ lines, ¬ covers l idx) → readS19 lines idx = 0xFF) := by
  constructor
  · exact runLines_record_value lines initMem hv hd
  · intro idx _ hnc
    unfold readS19
    rw [runLines_frame idx lines initMem
      (fun l hl => ⟨(hv l hl).1, (hv l hl).2.1, (hv l hl).2.2, hnc l hl⟩)]
    rfl

/-- C2 counterexample: two individually valid, in-window data records whose
payloads overlap.  The final image holds the second record's byte, so the
first record's payload byte `0xAA` is *not* stored at its index, refuting the
claim as stated for arbitrary files of valid in-window records. -/
theorem readS19_overlap_loses_byte :
    validS1 ("S104DC00AA75".toList) = true ∧
    validS1 ("S104DC00BB64".toList) = true ∧
    MEM_OFFSET ≤ lineAddr ("S104DC00AA75".toList) ∧
    lineAddr ("S104DC00AA75".toList) < MEM_OFFSET + MEM_SIZE ∧
    MEM_OFFSET ≤ lineAddr ("S104DC00BB64".toList) ∧
    lineAddr ("S104DC00BB64".toList) < MEM_OFFSET + MEM_SIZE ∧
    payloadByte ("S104DC00AA75".toList) 0 = 0xAA ∧
    readS19 ["S104DC00AA75".toList, "S104DC00BB64".toList]
      (lineAddr ("S104DC00AA75".toList) - MEM_OFFSET + 0) ≠ 0xAA := by
  decide

/-- Witness for `readS19_places_payload_and_fills_rest` on a concrete
one-record file: the payload byte lands at offset 0 and an uncovered index
reads back `0xFF`. -/
theorem readS19_places_payload_witness :
    readS19 ["S104DC00AA75".toList] 0 = 0xAA ∧
    readS19 ["S104DC00AA75".toList] 5 = 0xFF := by
  have h := readS19_places_payload_and_fills_rest ["S104DC00AA75".toList]
    (by decide) (by decide)
  constructor
  · have hb := h.1 ("S104DC00AA75".toList) (by decide) 0 (by decide)
    have hidx : lineAddr ("S104DC00AA75".toList) - MEM_OFFSET + 0 = 0 := by decide
    have hp : payloadByte ("S104DC00AA75".toList) 0 = 0xAA := by decide
    rw [hidx, hp] at hb
    exact hb
  · exact h.2 5 (by decide) (by decide)

/-! ## Claim C7: out-of-window records are skipped -/

/-- C7: a data record (`S1` line) whose parsed address lies outside
`[0xDC00, 0xDC00 + 0x1C00)` leaves every byte of the memory image unchanged
and does not stop parsing — the parser just `continue`s. -/
theorem out_of_window_record_skipped (l : List Char) (mem : Nat → Nat)
    (hS : lineGet l 0 = 'S') (h1 : lineGet l 1 = '1')
    (haddr : lineAddr l < MEM_OFFSET ∨ MEM_OFFSET + MEM_SIZE ≤ lineAddr l) :
    lineStep mem l = (mem, false) := by
  unfold lineStep processS1
  rw [if_pos ⟨hS, h1⟩, if_pos haddr]

/-- Witness for `out_of_window_record_skipped`: a record addressed at 0x0000
below the window leaves the fresh image untouched. -/
theorem out_of_window_record_skipped_witness :
    lineStep initMem ("S1040000AA51".toList) = (initMem, false) :=
  out_of_window_record_skipped _ initMem (by decide) (by decide) (by decide)

/-! ## Claim C9: payload writes and the image bound -/

/-- C9 (code bug): the address check accepts any record whose *start*
address is inside the window, but the payload loop trusts the byte-count
field, so a record near the window end writes past the `0x1C00`-byte image.
The fully valid record `S106F7FFAABBCCD2` (address `0xF7FF`, byte count 6)
is accepted and its second payload byte lands at index `0x1C00 = MEM_SIZE`,
one past the end of `mem[]` — in the C struct this corrupts the adjacent
fields. -/
theorem accepted_record_writes_out_of_bounds :
    validS1 ("S106F7FFAABBCCD2".toList) = true ∧
    MEM_OFFSET ≤ lineAddr ("S106F7FFAABBCCD2".toList) ∧
    lineAddr ("S106F7FFAABBCCD2".toList) < MEM_OFFSET + MEM_SIZE ∧
    processS1 ("S106F7FFAABBCCD2".toList) initMem MEM_SIZE = 0xBB ∧
    processS1 ("S106F7FFAABBCCD2".toList) initMem MEM_SIZE ≠ initMem MEM_SIZE := by
  decide

/-! ## Claim C10: independence from the record checksum byte -/

theorem sameExceptCrc_get (l1 l2 : List Char) (h : sameExceptCrc l1 l2) (p : Nat)
    (h1 : p ≠ crcPos l1) (h2 : p ≠ crcPos l1 + 1) : lineGet l1 p = lineGet l2 p := by
  by_cases hp : p < l1.length
  · exact h.2 p hp h1 h2
  · unfold lineGet
    rw [List.getD_eq_default l1 nulChar (le_of_not_lt hp),
      List.getD_eq_default l2 nulChar (h.1 ▸ le_of_not_lt hp)]

theorem sameExceptCrc_fields (l1 l2 : List Char) (h : sameExceptCrc l1 l2) :
    lineDatalen l1 = lineDatalen l2 ∧ lineAddr l1 = lineAddr l2 ∧
    lineGet l1 0 = lineGet l2 0 ∧ lineGet l1 1 = lineGet l2 1 := by
  have c : ∀ p, p < 8 → lineGet l1 p = lineGet l2 p := by
    intro p hp
    exact sameExceptCrc_get l1 l2 h p
      (by simp only [crcPos]; omega) (by simp only [crcPos]; omega)
  refine ⟨?_, ?_, c 0 (by omega), c 1 (by omega)⟩
  · show field2 l1 2 = field2 l2 2
    unfold field2
    rw [c 2 (by omega), c 3 (by omega)]
  · show field4 l1 4 = field4 l2 4
    unfold field4
    rw [c 4 (by omega), c 5 (by omega), c 6 (by omega), c 7 (by omega)]

theorem payloadByte_congr (l1 l2 : List Char) (h : sameExceptCrc l1 l2)
    (i : Nat) (hi : i < payloadLen l1) : payloadByte l1 i = payloadByte l2 i := by
  unfold payloadByte field2
  rw [sameExceptCrc_get l1 l2 h (8 + 2 * i)
      (by simp only [crcPos]; omega) (by simp only [crcPos]; omega),
    sameExceptCrc_get l1 l2 h (8 + 2 * i + 1)
      (by simp only [crcPos]; omega) (by simp only [crcPos]; omega)]

theorem storeBytes_congr (l1 l2 : List Char) (h : sameExceptCrc l1 l2) (base : Nat) :
    ∀ n, n ≤ payloadLen l1 → ∀ (mem : Nat → Nat) (idx : Nat),
      storeBytes mem base l1 n idx = storeBytes mem base l2 n idx := by
  intro n
  induction n with
  | zero => intro _ mem idx; rfl
  | succ k ih =>
    intro hn mem idx
    show (if idx = base + k then payloadByte l1 k else storeBytes mem base l1 k idx)
      = (if idx = base + k then payloadByte l2 k else storeBytes mem base l2 k idx)
    by_cases hidx : idx = base + k
    · rw [if_pos hidx, if_pos hidx, payloadByte_congr l1 l2 h k (by omega)]
    · rw [if_neg hidx, if_neg hidx]
      exact ih (by omega) mem idx

theorem processS1_congr (mem : Nat → Nat) (l1 l2 : List Char)
    (h : sameExceptCrc l1 l2) : processS1 l1 mem = processS1 l2 mem := by
  obtain ⟨hdl, hal, _, _⟩ := sameExceptCrc_fields l1 l2 h
  have hpl : payloadLen l1 = payloadLen l2 := by
    unfold payloadLen
    rw [hdl]
  unfold processS1
  rw [← hal, ← hpl]
  by_cases hc : lineAddr l1 < MEM_OFFSET ∨ MEM_OFFSET + MEM_SIZE ≤ lineAddr l1
  · rw [if_pos hc, if_pos hc]
  · rw [if_neg hc, if_neg hc]
    funext idx
    exact storeBytes_congr l1 l2 h _ _ le_rfl mem idx

theorem lineStep_congr (mem : Nat → Nat) (l1 l2 : List Char)
    (h : sameExceptCrc l1 l2) : lineStep mem l1 = lineStep mem l2 := by
  obtain ⟨_, _, h0, h1⟩ := sameExceptCrc_fields l1 l2 h
  unfold lineStep
  rw [← h0, ← h1]
  by_cases c1 : lineGet l1 0 = 'S' ∧ lineGet l1 1 = '1'
  · rw [if_pos c1, if_pos c1, processS1_congr mem l1 l2 h]
  · rw [if_neg c1, if_neg c1]

theorem runLines_congr :
    ∀ (ls1 ls2 : List (List Char)) (mem : Nat → Nat),
      List.Forall₂ sameExceptCrc ls1 ls2 → runLines mem ls1 = runLines mem ls2 := by
  intro ls1
  induction ls1 with
  | nil =>
    intro ls2 mem h
    cases h
    rfl
  | cons x rest ih =>
    intro ls2 mem h
    cases h with
    | cons hx hrest =>
      rename_i y ys
      show (let s := lineStep mem x; if s.2 then s.1 else runLines s.1 rest)
        = (let s := lineStep mem y; if s.2 then s.1 else runLines s.1 ys)
      rw [lineStep_congr mem x y hx]
      cases hls : lineStep mem y with
      | mk m stop =>
        simp only [hls]
        cases stop
        · exact ih ys m hrest
        · rfl

/-- C10: the parsed result does not depend on the trailing checksum byte of
any record.  Two files whose lines agree everywhere except in record
checksum fields produce the same memory image, the same `icp_flag`
(flag from file) and the same `icp_flag_calculated`: the per-record checksum
is computed into `calc_crc` but never compared, so no record is rejected
over it. -/
theorem readS19_ignores_record_crc (ls1 ls2 : List (List Char))
    (h : List.Forall₂ sameExceptCrc ls1 ls2) :
    readS19 ls1 = readS19 ls2 ∧
    icpFlagFromFile (readS19 ls1) = icpFlagFromFile (readS19 ls2) ∧
    icpFlagCalculated (readS19 ls1) = icpFlagCalculated (readS19 ls2) := by
  have hm : readS19 ls1 = readS19 ls2 := runLines_congr ls1 ls2 initMem h
  exact ⟨hm, by rw [hm], by rw [hm]⟩

/-- Witness for `readS19_ignores_record_crc`: the same record with a correct
(`75`) and a wrong (`00`) checksum byte parses to the same image. -/
theorem readS19_ignores_record_crc_witness :
    readS19 ["S104DC00AA75".toList] = readS19 ["S104DC00AA00".toList] :=
  (readS19_ignores_record_crc ["S104DC00AA75".toList] ["S104DC00AA00".toList]
    (List.Forall₂.cons (by decide) List.Forall₂.nil)).1

/-! ## Claim C3: the flag formula -/

/-- Masking with `0xffff` keeps the low 16 bits: `0xffff & x = x % 0x10000`. -/
theorem and_ffff (x : Nat) : 0xFFFF &&& x = x % 0x10000 := by
  rw [Nat.land_comm]
  have h := Nat.and_pow_two_sub_one_eq_mod x 16
  norm_num at h ⊢
  exact h

theorem foldl_add_eq_sum (f : Nat → Nat) :
    ∀ (l : List Nat) (acc : Nat),
      l.foldl (fun acc a => acc + f a) acc = acc + (l.map f).sum := by
  intro l
  induction l with
  | nil => intro acc; simp
  | cons a t ih =>
    intro acc
    simp only [List.foldl_cons, List.map_cons, List.sum_cons, ih, Nat.add_assoc]

/-- C3 (amended): `icp_flag_calculated` equals the spec's
complement-plus-one formula; it is at most `0x10000`, and it is a 16-bit
value (`< 0x10000`) exactly when the checksum-window sum is not divisible by
`0x10000` — in the divisible case it equals `0x10000`, which is not a 16-bit
value.  `icp_flag` is the big-endian 16-bit value of the bytes at addresses
`0xF7FE` and `0xF7FF`. -/
theorem icpFlag_formula (mem : Nat → Nat) :
    icpFlagCalculated mem = specFlagCalculated mem ∧
    icpFlagCalculated mem ≤ 0x10000 ∧
    (icpFlagCalculated mem < 0x10000 ↔ icpWindowSum mem % 0x10000 ≠ 0) ∧
    icpFlagFromFile mem = mem (0xF7FE - 0xDC00) * 256 + mem (0xF7FF - 0xDC00) := by
  have hsum : icpWindowSum mem =
      ((List.range' 0xF600 (0xF7FD + 1 - 0xF600)).map (fun a => mem (a - 0xDC00))).sum := by
    unfold icpWindowSum checksumAddrs ICP_CHECKSUM_START ICP_CHECKSUM_STOP MEM_OFFSET
    rw [foldl_add_eq_sum, Nat.zero_add]
  have hm : icpFlagCalculated mem = 0xFFFF - icpWindowSum mem % 0x10000 + 1 := by
    unfold icpFlagCalculated
    rw [and_ffff]
  have hlt : icpWindowSum mem % 0x10000 < 0x10000 := Nat.mod_lt _ (by norm_num)
  refine ⟨?_, ?_, ?_, ?_⟩
  · rw [hm]
    unfold specFlagCalculated
    rw [hsum]
  · rw [hm]; omega
  · rw [hm]; omega
  · rfl

set_option maxRecDepth 100000 in
/-- C3 counterexample: on the all-zero image the window sum is 0 and
`icp_flag_calculated` evaluates to `0x10000`, which is not a 16-bit value.
(An input file whose records zero the whole checksum window produces this
image.) -/
theorem icpFlagCalculated_not_16bit :
    icpFlagCalculated (fun _ => 0) = 0x10000 ∧
    ¬ icpFlagCalculated (fun _ => 0) < 0x10000 := by
  decide

/-! ## Claim C4: idempotence of the flag repair -/

theorem foldl_add_congr (f g : Nat → Nat) :
    ∀ (l : List Nat), (∀ a ∈ l, f a = g a) →
      ∀ acc, l.foldl (fun acc a => acc + f a) acc = l.foldl (fun acc a => acc + g a) acc := by
  intro l
  induction l with
  | nil => intro _ _; rfl
  | cons a t ih =>
    intro h acc
    show List.foldl _ (acc + f a) t = List.foldl _ (acc + g a) t
    rw [h a (List.mem_cons_self a t)]
    exact ih (fun b hb => h b (List.mem_cons_of_mem a hb)) _

/-- Rewriting the two flag bytes does not change the checksum-window sum:
the flag offset `0x1BFE` lies strictly above the window `[0x1A00, 0x1BFD]`. -/
theorem repair_preserves_window (mem : Nat → Nat) :
    icpWindowSum (repairFlag mem) = icpWindowSum mem := by
  unfold icpWindowSum
  refine foldl_add_congr _ _ checksumAddrs ?_ 0
  intro a ha
  unfold checksumAddrs ICP_CHECKSUM_START ICP_CHECKSUM_STOP at ha
  rw [List.mem_range'] at ha
  obtain ⟨i, hi, rfl⟩ := ha
  unfold repairFlag
  rw [if_neg ?_, if_neg ?_]
  · simp only [ICP_FLAG_ADDRESS, MEM_OFFSET]
    omega
  · simp only [ICP_FLAG_ADDRESS, MEM_OFFSET]
    omega

/-- C4 (amended): checksum repair is idempotent whenever the window sum is
not divisible by `0x10000`: after the flag bytes are overwritten with the
big-endian encoding of `icp_flag_calculated`, recomputing the checksum and
reading the stored flag back yield equal values, so a second repair pass
does not rewrite.  (The proviso is forced by
`repair_not_idempotent_on_zero_window`: when the sum is divisible the
recomputed value `0x10000` can never equal a stored 16-bit flag.) -/
theorem repair_idempotent (mem : Nat → Nat)
    (h : icpWindowSum mem % 0x10000 ≠ 0) :
    icpFlagCalculated (repairFlag mem) = icpFlagFromFile (repairFlag mem) := by
  have hw : icpFlagCalculated (repairFlag mem) = icpFlagCalculated mem := by
    unfold icpFlagCalculated
    rw [repair_preserves_window]
  have hmfc : icpFlagCalculated mem = 0xFFFF - icpWindowSum mem % 0x10000 + 1 := by
    unfold icpFlagCalculated
    rw [and_ffff]
  have hlt : icpWindowSum mem % 0x10000 < 0x10000 := Nat.mod_lt _ (by norm_num)
  have hfc : icpFlagCalculated mem < 0x10000 := by rw [hmfc]; omega
  have hread : icpFlagFromFile (repairFlag mem) =
      icpFlagCalculated mem / 256 % 256 * 256 + icpFlagCalculated mem % 256 := by
    unfold icpFlagFromFile repairFlag
    rw [if_pos rfl, if_neg (by omega), if_pos rfl]
  rw [hw, hread]
  omega

set_option maxRecDepth 100000 in
/-- C4 counterexample: on the all-zero image the recomputed flag after
repair is `0x10000` while the repaired bytes read back as `0x0000`, so the
comparison fails and a second repair pass rewrites the flag (with the same
bytes). -/
theorem repair_not_idempotent_on_zero_window :
    icpFlagCalculated (repairFlag (fun _ => 0)) ≠ icpFlagFromFile (repairFlag (fun _ => 0)) := by
  decide

set_option maxRecDepth 100000 in
/-- Witness for `repair_idempotent` at the all-`0xFF` image (window sum
`510 * 0xFF = 130050`, not divisible by `0x10000`). -/
theorem repair_idempotent_witness :
    icpFlagCalculated (repairFlag initMem) = icpFlagFromFile (repairFlag initMem) :=
  repair_idempotent initMem (by decide)

/-! ## Claim C1: per-block success checks -/

/-- C1 (code bug): the per-block checks do not implement "issuing transfer
returned its expected byte count AND polled status byte = 1".  A programmed
block whose program transfer returned 64 and whose status poll returned one
byte passes the check even with status byte 0 — the duplicated
`(result != 1) || (result != 1)` test never reads `status`.  An erase block
whose erase transfer failed (returned `-1`, not the expected count 0) also
passes when the status poll succeeds — the erase transfer's return is
overwritten before it is tested. -/
theorem blockChecks_ignore_status_and_issue_count :
    programBlockCheck ⟨64, 1, 0⟩ = true ∧
    (DevResp.mk 64 1 0).statusByte ≠ 1 ∧
    eraseFlashBlock ⟨-1, 1, 1⟩ = true ∧
    toByte (DevResp.mk (-1) 1 1).opRet ≠ 0 := by
  decide

/-! ## Claim C5: program transfers iff block not blank -/

theorem blockValid_false (mem : Nat → Nat) (a : Nat)
    (h : ∀ j < MEM_PROG_BLOCK_SIZE, mem (a - MEM_OFFSET + j) = 0xFF) :
    blockValid mem a = false := by
  simp only [blockValid, List.any_eq_false, List.mem_range, decide_eq_true_eq, ne_eq,
    not_not]
  exact h

theorem blockValid_true (mem : Nat → Nat) (a j : Nat) (hj : j < MEM_PROG_BLOCK_SIZE)
    (h : mem (a - MEM_OFFSET + j) ≠ 0xFF) : blockValid mem a = true := by
  unfold blockValid
  rw [List.any_eq_true]
  exact ⟨j, List.mem_range.mpr hj, by simpa using h⟩

theorem blockValid_exists (mem : Nat → Nat) (a : Nat) (h : blockValid mem a = true) :
    ∃ j < MEM_PROG_BLOCK_SIZE, mem (a - MEM_OFFSET + j) ≠ 0xFF := by
  unfold blockValid at h
  rw [List.any_eq_true] at h
  obtain ⟨j, hj, hv⟩ := h
  exact ⟨j, List.mem_range.mp hj, by simpa using hv⟩

theorem programFlashAux_all_blank (mem : Nat → Nat) (dev : Nat → DevResp) :
    ∀ addrs : List Nat, (∀ a ∈ addrs, blockValid mem a = false) →
      programFlashAux mem dev addrs = (true, []) := by
  intro addrs
  induction addrs with
  | nil => intro _; rfl
  | cons a t ih =>
    intro h
    have ha := h a (List.mem_cons_self a t)
    simp only [programFlashAux, ha, Bool.false_eq_true, if_false]
    exact ih (fun b hb => h b (List.mem_cons_of_mem a hb))

theorem programFlashAux_single (mem : Nat → Nat) (dev : Nat → DevResp) (b : Nat) :
    ∀ addrs : List Nat, addrs.Nodup → b ∈ addrs → blockValid mem b = true →
      (∀ a ∈ addrs, blockValid mem a = true → a = b) →
      (programFlashAux mem dev addrs).2 = [b] := by
  intro addrs
  induction addrs with
  | nil => intro _ hb; cases hb
  | cons a t ih =>
    intro hnd hb hvb huniq
    rcases List.mem_cons.mp hb with rfl | hbt
    · -- the head is the unique non-blank block; the tail is all blank
      have ht : programFlashAux mem dev t = (true, []) := by
        apply programFlashAux_all_blank
        intro x hx
        cases hv : blockValid mem x
        · rfl
        · have hxb := huniq x (List.mem_cons_of_mem b hx) hv
          exact absurd (hxb ▸ hx) (List.nodup_cons.mp hnd).1
      cases hc : programBlockCheck (dev b)
      · simp [programFlashAux, hvb, hc]
      · simp [programFlashAux, hvb, hc, ht]
    · -- the head is blank (else uniqueness would put b at the head twice)
      have hav : blockValid mem a = false := by
        cases hv : blockValid mem a
        · rfl
        · have hab := huniq a (List.mem_cons_self a t) hv
          exact absurd (hab.symm ▸ hbt) (List.nodup_cons.mp hnd).1
      simp only [programFlashAux, hav, Bool.false_eq_true, if_false]
      exact ih (List.nodup_cons.mp hnd).2 hbt hvb
        (fun x hx hv => huniq x (List.mem_cons_of_mem a hx) hv)

theorem programFlashAux_filter (mem : Nat → Nat) (dev : Nat → DevResp)
    (hdev : ∀ a, programBlockCheck (dev a) = true) :
    ∀ addrs : List Nat,
      programFlashAux mem dev addrs = (true, addrs.filter (blockValid mem)) := by
  intro addrs
  induction addrs with
  | nil => rfl
  | cons a t ih =>
    cases hv : blockValid mem a
    · simp [programFlashAux, hv, List.filter_cons, ih]
    · simp [programFlashAux, hv, hdev a, List.filter_cons, ih]

theorem progAddrs_nodup : progAddrs.Nodup := by
  unfold progAddrs
  refine List.Nodup.map ?_ (List.nodup_range _)
  intro x y hxy
  simp only [MEM_OFFSET, MEM_PROG_BLOCK_SIZE] at hxy
  omega

/-- C5: the program phase issues a transfer for a 64-byte block iff some
byte of the block differs from `0xff`.  (i) For an all-`0xFF` image the
phase completes with zero program transfers, whatever the device replies.
(ii) For an image with exactly one non-`0xFF` byte (at in-window index `k`)
exactly one transfer is issued, for the 64-byte block containing that byte,
again for any device behaviour.  (iii) When every issued transfer passes its
checks, the issued blocks are exactly the non-blank ones, in address
order. -/
theorem programFlash_transfers_iff_nonblank (mem : Nat → Nat) (dev : Nat → DevResp) :
    ((∀ idx < MEM_SIZE, mem idx = 0xFF) → programFlash mem dev = (true, [])) ∧
    (∀ k < MEM_SIZE, mem k ≠ 0xFF →
      (∀ j < MEM_SIZE, j ≠ k → mem j = 0xFF) →
      (programFlash mem dev).2 =
        [MEM_OFFSET + MEM_PROG_BLOCK_SIZE * (k / MEM_PROG_BLOCK_SIZE)]) ∧
    ((∀ a, programBlockCheck (dev a) = true) →
      programFlash mem dev = (true, progAddrs.filter (blockValid mem))) := by
  refine ⟨?_, ?_, ?_⟩
  · -- all-0xFF image: every block is blank
    intro hall
    apply programFlashAux_all_blank
    intro a ha
    unfold progAddrs at ha
    rw [List.mem_map] at ha
    obtain ⟨t, ht, rfl⟩ := ha
    rw [List.mem_range] at ht
    apply blockValid_false
    intro j hj
    apply hall
    simp only [MEM_OFFSET, MEM_PROG_BLOCK_SIZE, MEM_SIZE] at ht hj ⊢
    omega
  · -- exactly one non-0xFF byte: only its block is non-blank
    intro k hk hmem huniq
    have hidx : MEM_OFFSET + MEM_PROG_BLOCK_SIZE * (k / MEM_PROG_BLOCK_SIZE) - MEM_OFFSET
        + k % MEM_PROG_BLOCK_SIZE = k := by
      simp only [MEM_OFFSET, MEM_PROG_BLOCK_SIZE]
      omega
    apply programFlashAux_single mem dev _ progAddrs progAddrs_nodup
    · unfold progAddrs
      rw [List.mem_map]
      refine ⟨k / MEM_PROG_BLOCK_SIZE, List.mem_range.mpr ?_, rfl⟩
      simp only [MEM_SIZE, MEM_PROG_BLOCK_SIZE] at hk ⊢
      omega
    · apply blockValid_true mem _ (k % MEM_PROG_BLOCK_SIZE)
        (Nat.mod_lt _ (by simp [MEM_PROG_BLOCK_SIZE]))
      rw [hidx]
      exact hmem
    · intro a ha hv
      unfold progAddrs at ha
      rw [List.mem_map] at ha
      obtain ⟨t, ht, rfl⟩ := ha
      rw [List.mem_range] at ht
      obtain ⟨j, hj, hne⟩ := blockValid_exists mem _ hv
      have hja : MEM_OFFSET + MEM_PROG_BLOCK_SIZE * t - MEM_OFFSET + j
          = MEM_PROG_BLOCK_SIZE * t + j := by
        simp only [MEM_OFFSET]
        omega
      rw [hja] at hne
      have hjk : MEM_PROG_BLOCK_SIZE * t + j = k := by
        by_contra hne2
        exact hne (huniq _ (by simp only [MEM_SIZE, MEM_PROG_BLOCK_SIZE] at ht hj ⊢; omega)
          hne2)
      simp only [MEM_PROG_BLOCK_SIZE] at hjk hj ⊢
      omega
  · -- fully successful device: trace is the filter of non-blank blocks
    intro hdev
    exact programFlashAux_filter mem dev hdev progAddrs

/-- Witness for `programFlash_transfers_iff_nonblank`: the fresh all-`0xFF`
image programs nothing; an image whose only non-`0xFF` byte sits at index
`0x41` programs exactly the second block `0xDC40`; a successful device
yields the filtered block list. -/
theorem programFlash_transfers_witness :
    programFlash initMem (fun _ => ⟨64, 1, 1⟩) = (true, []) ∧
    (programFlash (fun idx => if idx = 0x41 then 0 else 0xFF)
      (fun _ => ⟨64, 1, 1⟩)).2 = [0xDC40] ∧
    programFlash (fun idx => if idx = 0x41 then 0 else 0xFF) (fun _ => ⟨64, 1, 1⟩)
      = (true, progAddrs.filter (blockValid (fun idx => if idx = 0x41 then 0 else 0xFF))) := by
  refine ⟨?_, ?_, ?_⟩
  · exact (programFlash_transfers_iff_nonblank initMem _).1 (fun _ _ => rfl)
  · have h := (programFlash_transfers_iff_nonblank
      (fun idx => if idx = 0x41 then 0 else 0xFF) (fun _ => ⟨64, 1, 1⟩)).2.1
      0x41 (by decide) (by decide)
      (fun j _ hne => if_neg hne)
    rw [h]
    rfl
  · exact (programFlash_transfers_iff_nonblank _ _).2.2 (fun _ => by decide)

/-! ## Claim C6: erase phase — full sweep or immediate abort -/

theorem eraseFlashAux_all_ok (dev : Nat → DevResp) :
    ∀ addrs : List Nat, (∀ a ∈ addrs, eraseFlashBlock (dev a) = true) →
      eraseFlashAux dev addrs = (true, addrs) := by
  intro addrs
  induction addrs with
  | nil => intro _; rfl
  | cons a t ih =>
    intro h
    have ha := h a (List.mem_cons_self a t)
    simp only [eraseFlashAux, ha, if_true,
      ih (fun b hb => h b (List.mem_cons_of_mem a hb))]

theorem eraseFlashAux_abort (dev : Nat → DevResp) (b : Nat)
    (hb : eraseFlashBlock (dev b) = false) :
    ∀ xs ys : List Nat, (∀ a ∈ xs, eraseFlashBlock (dev a) = true) →
      eraseFlashAux dev (xs ++ b :: ys) = (false, xs ++ [b]) := by
  intro xs
  induction xs with
  | nil =>
    intro ys _
    simp only [List.nil_append, eraseFlashAux, hb, Bool.false_eq_true, if_false]
  | cons a t ih =>
    intro ys h
    have ha := h a (List.mem_cons_self a t)
    simp only [List.cons_append, eraseFlashAux, ha, if_true, List.append_eq,
      ih ys (fun x hx => h x (List.mem_cons_of_mem a hx))]

/-- C6: if every erase-block operation succeeds, the erase phase completes
after issuing exactly `MEM_SIZE / MEM_BLOCK_SIZE = 14` erase transfers, at
512-byte increments covering `[0xDC00, 0xF800)`.  If some erase-block
operation fails — in particular when its polled status byte is not 1 while
all earlier blocks succeeded — the phase aborts at that block: no transfer
is issued for any later block, the run exits with `HRM_FLASH_ERASE_ERROR`,
the device handle is left as `HRM_CheckError` leaves it, and the program
phase is never entered (its trace is empty). -/
theorem eraseFlash_full_or_abort (mem : Nat → Nat) (edev pdev : Nat → DevResp) :
    ((∀ a ∈ eraseAddrs, eraseFlashBlock (edev a) = true) →
      eraseFlash edev = (true, eraseAddrs) ∧
      eraseAddrs = [0xDC00, 0xDE00, 0xE000, 0xE200, 0xE400, 0xE600, 0xE800,
        0xEA00, 0xEC00, 0xEE00, 0xF000, 0xF200, 0xF400, 0xF600] ∧
      eraseAddrs.length = MEM_SIZE / MEM_BLOCK_SIZE) ∧
    (∀ xs b ys, eraseAddrs = xs ++ b :: ys →
      (∀ a ∈ xs, eraseFlashBlock (edev a) = true) →
      (edev b).statusByte ≠ 1 →
      mainAfterOpen true true mem edev pdev =
        (HRM_FLASH_ERASE_ERROR, false, xs ++ [b], [])) := by
  constructor
  · intro h
    exact ⟨eraseFlashAux_all_ok edev eraseAddrs h, by decide, by decide⟩
  · intro xs b ys hsplit hxs hstatus
    have hfb : eraseFlashBlock (edev b) = false := by
      unfold eraseFlashBlock
      rw [if_pos (Or.inl hstatus)]
    have herase : eraseFlash edev = (false, xs ++ [b]) := by
      unfold eraseFlash
      rw [hsplit]
      exact eraseFlashAux_abort edev b hfb xs ys hxs
    simp only [mainAfterOpen, if_true, herase, Bool.false_eq_true, if_false]

/-- Witness for `eraseFlash_full_or_abort`: a device that accepts every
erase completes all 14 blocks; a device whose second block reports status 0
stops the run after two issued erase transfers with the erase error and no
program transfer. -/
theorem eraseFlash_full_or_abort_witness :
    eraseFlash (fun _ => ⟨0, 1, 1⟩) = (true, eraseAddrs) ∧
    mainAfterOpen true true initMem
      (fun a => if a = 0xDE00 then ⟨0, 1, 0⟩ else ⟨0, 1, 1⟩) (fun _ => ⟨64, 1, 1⟩)
      = (HRM_FLASH_ERASE_ERROR, false, [0xDC00, 0xDE00], []) := by
  constructor
  · exact ((eraseFlash_full_or_abort initMem (fun _ => ⟨0, 1, 1⟩)
      (fun _ => ⟨64, 1, 1⟩)).1 (fun a _ => rfl)).1
  · exact (eraseFlash_full_or_abort initMem
      (fun a => if a = 0xDE00 then ⟨0, 1, 0⟩ else ⟨0, 1, 1⟩) (fun _ => ⟨64, 1, 1⟩)).2
      [0xDC00] 0xDE00
      [0xE000, 0xE200, 0xE400, 0xE600, 0xE800, 0xEA00, 0xEC00, 0xEE00, 0xF000,
        0xF200, 0xF400, 0xF600]
      (by decide) (by decide) (by decide)

/-! ## Claim C8: the handle on error exit paths -/

/-- C8 (code bug): a run that successfully opened and configured the device
and then fails its erase phase exits through `HRM_CheckError` with the
flash-erase error code *without* `usb_close` ever being called — the `Bool`
component records that no close happened.  Only the full-success path (and
the configuration-failure path inside `HRM_ICP_InitUSB`) closes the
handle. -/
theorem erase_failure_exits_without_close :
    mainAfterOpen true true initMem (fun _ => ⟨0, 1, 0⟩) (fun _ => ⟨64, 1, 1⟩)
      = (HRM_FLASH_ERASE_ERROR, false, [0xDC00], []) ∧
    (mainAfterOpen true true initMem (fun _ => ⟨0, 1, 0⟩) (fun _ => ⟨64, 1, 1⟩)).2.1
      = false := by
  decide
